import Mathlib

/-!
Verification of the audio ingestion & normalization pipeline of the Ralph
voice speech-to-text server (`ralph-voice-app/python/stt_server.py`).

Bytes are modelled as natural numbers (values 0–255); byte strings as
`List Nat`.  Floating-point sample values are modelled as rationals `ℚ`:
the claims settled here are algorithmic (branch structure, truncation
versus rounding, range bounds) and are insensitive to float rounding at
the inputs used.  Fallible Python code is modelled with `Except String`.
-/

namespace Stt

/-- Container formats recognized by the sniffer.  The Python function
returns the strings `'wav'`, `'webm'`, `'mp3'`, `'ogg'`, `'flac'` or
`None`; `None` is modelled as `unknown`. -/
inductive ContainerFormat where
  | wav
  | webm
  | mp3
  | ogg
  | flac
  | unknown
  deriving DecidableEq, Repr

/-- Magic `b'RIFF'`. -/
def riffMagic : List Nat := [0x52, 0x49, 0x46, 0x46]
/-- Magic `b'\x1aE\xdf\xa3'` (WebM / Matroska). -/
def webmMagic : List Nat := [0x1A, 0x45, 0xDF, 0xA3]
/-- Magic `b'ID3'`. -/
def id3Magic : List Nat := [0x49, 0x44, 0x33]
/-- Magic `b'\xff\xfb'` (bare MP3 frame sync). -/
def mp3SyncMagic : List Nat := [0xFF, 0xFB]
/-- Magic `b'OggS'`. -/
def oggMagic : List Nat := [0x4F, 0x67, 0x67, 0x53]
/-- Magic `b'fLaC'`. -/
def flacMagic : List Nat := [0x66, 0x4C, 0x61, 0x43]
/-- Magic `b'WAVE'`. -/
def waveMagic : List Nat := [0x57, 0x41, 0x56, 0x45]
/-- Magic `b'fmt '`. -/
def fmtMagic : List Nat := [0x66, 0x6D, 0x74, 0x20]
/-- Magic `b'data'`. -/
def dataMagic : List Nat := [0x64, 0x61, 0x74, 0x61]

/-- Sniffer `detect_audio_format` (stt_server.py lines 153–166).  Python's slice
`audio_data[:n]` is `List.take n`: on a short blob it yields a shorter
list, which never equals a longer magic. -/
def detect_audio_format (audio_data : List Nat) : ContainerFormat :=
  if audio_data.take 4 = riffMagic then .wav
  else if audio_data.take 4 = webmMagic then .webm
  else if audio_data.take 3 = id3Magic ∨ audio_data.take 2 = mp3SyncMagic then .mp3
  else if audio_data.take 4 = oggMagic then .ogg
  else if audio_data.take 4 = flacMagic then .flac
  else .unknown

example : detect_audio_format [0x52, 0x49, 0x46, 0x46, 0, 0] = .wav := by decide
example : detect_audio_format [0x4F, 0x67, 0x67, 0x53, 99] = .ogg := by decide
example : detect_audio_format [0x49, 0x44, 0x33] = .mp3 := by decide
example : detect_audio_format [0, 0, 0, 0] = .unknown := by decide
example : detect_audio_format [] = .unknown := by decide

/-! ## Normalizer (stt_server.py lines 114–122) -/

/-- Truncation toward zero of a rational: the C-style float→int conversion
performed by numpy `.astype` on an in-range value. -/
def truncToInt (q : ℚ) : Int := if 0 ≤ q then ⌊q⌋ else ⌈q⌉

/-- Wrap an integer into the int16 value range modulo `2^16`
(`.astype(np.int16)` keeps only the low 16 bits when the truncated value
is out of range; every value the pipeline produces is in range, where the
wrap is the identity). -/
def wrapInt16 (i : Int) : Int := (i + 32768) % 65536 - 32768

/-- numpy `x.astype(np.int16)` on one float value. -/
def astypeInt16 (q : ℚ) : Int := wrapInt16 (truncToInt q)

/-- Peak `np.max(np.abs(samples_array))` (line 119); `0` on the empty list, but
the code only reaches it on nonempty input (line 111 raises first). -/
def peakOf (samples : List ℚ) : ℚ := (samples.map (fun s => |s|)).foldr max 0

/-- Lines 120–121: `if max_val > 0: samples_array = samples_array / max_val`. -/
def normalizeSamples (samples : List ℚ) : List ℚ :=
  if peakOf samples > 0 then samples.map (fun s => s / peakOf samples) else samples

/-- Line 122: `(samples_array * 32767).astype(np.int16)`. -/
def samplesToInt16 (samples : List ℚ) : List Int :=
  (normalizeSamples samples).map (fun s => astypeInt16 (s * 32767))

example : samplesToInt16 [(1 : ℚ), 1/2] = [32767, 16383] := by
  norm_num [samplesToInt16, normalizeSamples, peakOf, astypeInt16, truncToInt,
    wrapInt16, max_def, abs]
example : samplesToInt16 [(0 : ℚ), 0] = [0, 0] := by
  norm_num [samplesToInt16, normalizeSamples, peakOf, astypeInt16, truncToInt,
    wrapInt16, max_def, abs]

/-! ## WavEncoder (stt_server.py lines 124–146) -/

/-- Bytes of `struct.pack('<H', n)` for in-range `n`. -/
def u16le (n : Nat) : List Nat := [n % 256, n / 256 % 256]

/-- Bytes of `struct.pack('<I', n)` for in-range `n` (on `n ≥ 2^32` the Python call
raises `struct.error`; the theorems below carry that bound as a
hypothesis). -/
def u32le (n : Nat) : List Nat :=
  [n % 256, n / 256 % 256, n / 65536 % 256, n / 16777216 % 256]

/-- One sample of `samples_int16.tobytes()`: two's-complement int16,
little-endian. -/
def int16le (i : Int) : List Nat := u16le (i % 65536).toNat

/-- Lines 124–146: sequential writes of the RIFF/fmt/data chunks followed
by the raw samples. -/
def encodeWav (samples : List Int) : List Nat :=
  let data_size := samples.length * 2
  riffMagic ++ u32le (36 + data_size) ++ waveMagic ++ fmtMagic
    ++ u32le 16 ++ u16le 1 ++ u16le 1 ++ u32le 16000 ++ u32le 32000
    ++ u16le 2 ++ u16le 16 ++ dataMagic ++ u32le data_size
    ++ samples.flatMap int16le

/-- Little-endian value of a byte list. -/
def lebytes : List Nat → Nat
  | [] => 0
  | b :: bs => b + 256 * lebytes bs

/-- The unsigned 16-bit value stored at byte offset `off`. -/
def readU16 (l : List Nat) (off : Nat) : Nat := lebytes ((l.drop off).take 2)

/-- The unsigned 32-bit value stored at byte offset `off`. -/
def readU32 (l : List Nat) (off : Nat) : Nat := lebytes ((l.drop off).take 4)

/-- The two's-complement signed 16-bit value stored at byte offset `off`. -/
def readI16 (l : List Nat) (off : Nat) : Int :=
  if readU16 l off < 32768 then (readU16 l off : Int)
  else (readU16 l off : Int) - 65536

example (s : List Int) : ((encodeWav s).drop 8).take 4 = waveMagic := rfl
example (s : List Int) :
    readU32 (encodeWav s) 4 = lebytes (u32le (36 + s.length * 2)) := rfl
example (s : List Int) : (encodeWav s).drop 44 = s.flatMap int16le := rfl

/-! ## convert_to_wav and the orchestrator (stt_server.py lines 79–234)

The PyAV demux/decode (lines 85–109) and the Whisper engine (lines
198–206) are external collaborators; they enter the model as oracles: the
decode outcome is an exception or the flat list of decoded float samples,
the engine maps the WAV bytes it is handed to an exception or a
`(text, language, duration)` triple. -/

/-- The body of `convert_to_wav` after the external decode (lines
109–146): a decode exception is re-raised (line 150), an empty sample
list raises `ValueError("No audio samples decoded")` (line 112), and
otherwise normalization, quantization and the byte-exact WAV
serialization run. -/
def convert_to_wav (decoded : Except String (List ℚ)) : Except String (List Nat) :=
  decoded.bind fun samples =>
    if samples.isEmpty then .error "No audio samples decoded"
    else .ok (encodeWav (samplesToInt16 samples))

/-- The structured response of `transcribe_audio`.  The success dict has
`language` and `duration` and no `error`; the failure dicts have `error`
and neither of the two. -/
structure TranscriptionResult where
  success : Bool
  text : String
  language : Option String
  duration : Option ℚ
  error : Option String
  deriving DecidableEq, Repr

/-- Lines 174–194: the bytes handed to the transcription engine — the raw
blob unchanged when it already sniffs as WAV, otherwise the outcome of
`convert_to_wav`. -/
def audio_for_transcription (blob : List Nat) (decoded : Except String (List ℚ)) :
    Except String (List Nat) :=
  if detect_audio_format blob ≠ ContainerFormat.wav then convert_to_wav decoded
  else .ok blob

/-- Lines 196–228: invoke the engine on the persisted bytes and shape its
outcome into the response dict. -/
def engineResult (engine : List Nat → Except String (String × String × ℚ))
    (wav : List Nat) : TranscriptionResult :=
  match engine wav with
  | .ok (text, lang, dur) => ⟨true, text, some lang, some dur, none⟩
  | .error e => ⟨false, "", none, none, some e⟩

/-- Orchestrator `transcribe_audio` (lines 169–234) with the two collaborators as
oracles.  A conversion failure is caught at lines 183–189 and mapped to
the structured failure dict; otherwise the engine runs on the resulting
bytes. -/
def transcribe_audio (blob : List Nat) (decoded : Except String (List ℚ))
    (engine : List Nat → Except String (String × String × ℚ)) : TranscriptionResult :=
  match audio_for_transcription blob decoded with
  | .error e => ⟨false, "", none, none, some ("Audio conversion failed: " ++ e)⟩
  | .ok wav => engineResult engine wav

/-! ## A WAV parser for the round-trip property -/

/-- Signed 16-bit little-endian samples of a data chunk, two bytes per
sample. -/
def decodeSamples : List Nat → List Int
  | b0 :: b1 :: rest =>
    (if b0 + 256 * b1 < 32768 then (b0 + 256 * b1 : Int)
     else (b0 + 256 * b1 : Int) - 65536) :: decodeSamples rest
  | _ => []

/-- Modelled from the spec: the repository delegates WAV reading to the
external PyAV collaborator, so it contains no parser of its own; this
parser realizes the canonical PCM WAV layout of spec §4.4 to state the
spec §8 round-trip property.  It yields
`(sample_rate, channel_count, samples)` when the header is well-formed
and the data chunk length matches, `none` otherwise. -/
def parseWav (w : List Nat) : Option (Nat × Nat × List Int) :=
  if w.take 4 = riffMagic ∧ (w.drop 8).take 4 = waveMagic
      ∧ (w.drop 12).take 4 = fmtMagic ∧ readU32 w 16 = 16
      ∧ readU16 w 20 = 1 ∧ (w.drop 36).take 4 = dataMagic
      ∧ readU32 w 4 = 36 + readU32 w 40
      ∧ (w.drop 44).length = readU32 w 40
  then some (readU32 w 24, readU16 w 22, decodeSamples (w.drop 44))
  else none

/-- Modelled from the spec: the quantizer the spec describes in §4.3 step 4
— `round(s * 32767)` clamped to `[-32768, 32767]` — stated for comparison
with the source's `astypeInt16`-based quantizer. -/
def specQuantize (s : ℚ) : Int := max (-32768) (min 32767 (round (s * 32767)))

/-! ## Helper lemmas -/

lemma lebytes_u16le {n : Nat} (h : n < 65536) : lebytes (u16le n) = n := by
  simp only [u16le, lebytes]
  omega

lemma lebytes_u32le {n : Nat} (h : n < 4294967296) : lebytes (u32le n) = n := by
  simp only [u32le, lebytes]
  omega

lemma int16le_length (i : Int) : (int16le i).length = 2 := rfl

lemma flatMap_int16le_length (s : List Int) :
    (s.flatMap int16le).length = 2 * s.length := by
  induction s with
  | nil => rfl
  | cons a t ih => simp [List.flatMap_cons, int16le_length, ih]; omega

lemma decodeSamples_int16le (s : List Int)
    (h : ∀ x ∈ s, -32768 ≤ x ∧ x ≤ 32767) :
    decodeSamples (s.flatMap int16le) = s := by
  induction s with
  | nil => rfl
  | cons a t ih =>
    obtain ⟨ha, ht⟩ : (-32768 ≤ a ∧ a ≤ 32767) ∧ ∀ x ∈ t, -32768 ≤ x ∧ x ≤ 32767 :=
      ⟨h a (List.mem_cons_self a t), fun x hx => h x (List.mem_cons_of_mem a hx)⟩
    have hmod : ((a % 65536).toNat : Int) = a % 65536 :=
      Int.toNat_of_nonneg (Int.emod_nonneg a (by norm_num))
    show (if (a % 65536).toNat % 256 + 256 * ((a % 65536).toNat / 256 % 256) < 32768
        then ((a % 65536).toNat % 256 + 256 * ((a % 65536).toNat / 256 % 256) : Int)
        else ((a % 65536).toNat % 256 + 256 * ((a % 65536).toNat / 256 % 256) : Int)
          - 65536) :: decodeSamples (t.flatMap int16le) = a :: t
    rw [ih ht]
    congr 1
    have h2 : a % 65536 = a ∨ a % 65536 = a + 65536 := by omega
    split <;> push_cast [hmod] <;> omega

lemma peakOf_nonneg (samples : List ℚ) : 0 ≤ peakOf samples := by
  induction samples with
  | nil => simp [peakOf]
  | cons a t ih => simp only [peakOf, List.map_cons, List.foldr_cons] at *
                   exact le_max_of_le_right ih

lemma abs_le_peakOf {samples : List ℚ} {x : ℚ} (hx : x ∈ samples) :
    |x| ≤ peakOf samples := by
  induction samples with
  | nil => cases hx
  | cons a t ih =>
    simp only [peakOf, List.map_cons, List.foldr_cons]
    rcases List.mem_cons.mp hx with rfl | hmem
    · exact le_max_left _ _
    · exact le_max_of_le_right (ih hmem)

lemma eq_zero_of_peakOf_eq_zero {samples : List ℚ} (h : peakOf samples = 0)
    {x : ℚ} (hx : x ∈ samples) : x = 0 :=
  abs_eq_zero.mp (le_antisymm (h ▸ abs_le_peakOf hx) (abs_nonneg x))

lemma truncToInt_abs_le {q : ℚ} {n : Nat} (h : |q| ≤ (n : ℚ)) :
    -(n : Int) ≤ truncToInt q ∧ truncToInt q ≤ (n : Int) := by
  rw [abs_le] at h
  unfold truncToInt
  split
  · constructor
    · calc -(n : Int) ≤ 0 := by omega
        _ ≤ ⌊q⌋ := Int.floor_nonneg.mpr (by assumption)
    · calc ⌊q⌋ ≤ ⌊(n : ℚ)⌋ := Int.floor_le_floor h.2
        _ = (n : Int) := by rw [Int.floor_natCast]
  · constructor
    · calc -(n : Int) = ⌈((-(n : Int) : Int) : ℚ)⌉ := (Int.ceil_intCast _).symm
        _ ≤ ⌈q⌉ := Int.ceil_le_ceil (by push_cast; exact h.1)
    · have : q ≤ 0 := le_of_lt (lt_of_not_ge (by assumption))
      calc ⌈q⌉ ≤ ⌈(0 : ℚ)⌉ := Int.ceil_le_ceil this
        _ = 0 := by simp
        _ ≤ (n : Int) := by omega

lemma wrapInt16_of_mem_range {i : Int} (h1 : -32768 ≤ i) (h2 : i ≤ 32767) :
    wrapInt16 i = i := by
  unfold wrapInt16
  omega

/-- Every element of the normalized sequence has absolute value at most 1:
division by a positive peak bounds each sample by 1, and a zero peak
forces every sample to be 0. -/
lemma abs_normalize_le_one {samples : List ℚ} {x : ℚ}
    (hx : x ∈ normalizeSamples samples) : |x| ≤ 1 := by
  by_cases hp : peakOf samples > 0
  · rw [normalizeSamples, if_pos hp] at hx
    obtain ⟨s, hs, rfl⟩ := List.mem_map.mp hx
    rw [abs_div, abs_of_pos hp]
    exact (div_le_one hp).mpr (abs_le_peakOf hs)
  · rw [normalizeSamples, if_neg hp] at hx
    have hz : peakOf samples = 0 :=
      le_antisymm (le_of_not_lt hp) (peakOf_nonneg samples)
    rw [eq_zero_of_peakOf_eq_zero hz hx]
    norm_num

/-- Every quantized output value is `truncToInt` of the scaled sample (the
int16 wrap never fires) and lies in `[-32767, 32767]`. -/
lemma samplesToInt16_spec {samples : List ℚ} {x : Int}
    (hx : x ∈ samplesToInt16 samples) :
    (∃ s ∈ normalizeSamples samples, x = truncToInt (s * 32767)) ∧
      -32767 ≤ x ∧ x ≤ 32767 := by
  obtain ⟨s, hs, rfl⟩ := List.mem_map.mp hx
  have habs : |s * 32767| ≤ ((32767 : Nat) : ℚ) := by
    rw [abs_mul]
    calc |s| * |(32767 : ℚ)| ≤ 1 * |(32767 : ℚ)| := by
          apply mul_le_mul_of_nonneg_right (abs_normalize_le_one hs) (abs_nonneg _)
      _ = ((32767 : Nat) : ℚ) := by norm_num
  obtain ⟨hlo, hhi⟩ := truncToInt_abs_le habs
  have hwrap : astypeInt16 (s * 32767) = truncToInt (s * 32767) :=
    wrapInt16_of_mem_range (by omega) (by exact_mod_cast hhi)
  refine ⟨⟨s, hs, hwrap⟩, ?_, ?_⟩ <;> rw [samplesToInt16] at * <;> rw [hwrap] <;> omega

lemma take_eq_of_take4 {d : List Nat} {a b c e : Nat} (h : d.take 4 = [a, b, c, e]) :
    d.take 3 = [a, b, c] ∧ d.take 2 = [a, b] := by
  match d with
  | [] => exact absurd (show ([] : List Nat) = [a, b, c, e] from h) (by simp)
  | [x1] => exact absurd (show [x1] = [a, b, c, e] from h) (by simp)
  | [x1, x2] => exact absurd (show [x1, x2] = [a, b, c, e] from h) (by simp)
  | [x1, x2, x3] => exact absurd (show [x1, x2, x3] = [a, b, c, e] from h) (by simp)
  | x1 :: x2 :: x3 :: x4 :: t =>
    have h4 : [x1, x2, x3, x4] = [a, b, c, e] := h
    obtain ⟨rfl, rfl, rfl, rfl⟩ : x1 = a ∧ x2 = b ∧ x3 = c ∧ x4 = e := by
      simpa using h4
    exact ⟨rfl, rfl⟩

lemma take_ne_of_all_zero {d l : List Nat} {n : Nat} (hz : ∀ x ∈ d, x = 0)
    {y : Nat} (hy : y ∈ l) (hy0 : y ≠ 0) : d.take n ≠ l := by
  intro h
  exact hy0 (hz y (List.take_subset n d (h ▸ hy)))

/-- Characterization of the sniffer, magic by magic. -/
lemma detect_audio_format_spec (d : List Nat) :
    (detect_audio_format d = .wav ↔ d.take 4 = riffMagic) ∧
    (detect_audio_format d = .webm ↔ d.take 4 = webmMagic) ∧
    ((d.take 3 = id3Magic ∨ d.take 2 = mp3SyncMagic) → detect_audio_format d = .mp3) ∧
    (detect_audio_format d = .ogg ↔ d.take 4 = oggMagic) ∧
    (detect_audio_format d = .flac ↔ d.take 4 = flacMagic) ∧
    (detect_audio_format d = .unknown ↔
      d.take 4 ≠ riffMagic ∧ d.take 4 ≠ webmMagic ∧ d.take 3 ≠ id3Magic ∧
        d.take 2 ≠ mp3SyncMagic ∧ d.take 4 ≠ oggMagic ∧ d.take 4 ≠ flacMagic) := by
  unfold detect_audio_format
  split_ifs with h1 h2 h3 h4 h5
  · obtain ⟨ht3, ht2⟩ := take_eq_of_take4 h1
    simp_all [riffMagic, webmMagic, id3Magic, mp3SyncMagic, oggMagic, flacMagic]
  · obtain ⟨ht3, ht2⟩ := take_eq_of_take4 h2
    simp_all [riffMagic, webmMagic, id3Magic, mp3SyncMagic, oggMagic, flacMagic]
  · rcases h3 with h3 | h3
    · have h4 := h3
      rw [id3Magic] at h4
      have hx : d.take 4 ≠ oggMagic ∧ d.take 4 ≠ flacMagic := by
        constructor <;> intro hcon <;>
          simp_all [oggMagic, flacMagic, (take_eq_of_take4 hcon).1, id3Magic]
      simp_all [riffMagic, webmMagic, id3Magic, mp3SyncMagic, oggMagic, flacMagic]
    · have h4 := h3
      rw [mp3SyncMagic] at h4
      have hx : d.take 4 ≠ oggMagic ∧ d.take 4 ≠ flacMagic := by
        constructor <;> intro hcon <;>
          simp_all [oggMagic, flacMagic, (take_eq_of_take4 hcon).2, mp3SyncMagic]
      simp_all [riffMagic, webmMagic, id3Magic, mp3SyncMagic, oggMagic, flacMagic]
  · obtain ⟨ht3, ht2⟩ := take_eq_of_take4 h4
    simp_all [riffMagic, webmMagic, id3Magic, mp3SyncMagic, oggMagic, flacMagic]
  · obtain ⟨ht3, ht2⟩ := take_eq_of_take4 h5
    simp_all [riffMagic, webmMagic, id3Magic, mp3SyncMagic, oggMagic, flacMagic]
  · simp_all

lemma samplesToInt16_length (samples : List ℚ) :
    (samplesToInt16 samples).length = samples.length := by
  rw [samplesToInt16, List.length_map, normalizeSamples]
  split <;> simp

lemma encodeWav_length (s : List Int) :
    (encodeWav s).length = 44 + 2 * s.length := by
  rw [encodeWav]
  simp only [List.length_append, riffMagic, waveMagic, fmtMagic, dataMagic,
    u32le, u16le, List.length_cons, List.length_nil, flatMap_int16le_length]

lemma drop_two_mul_flatMap (i : Nat) (s : List Int) :
    (s.flatMap int16le).drop (2 * i) = (s.drop i).flatMap int16le := by
  induction i generalizing s with
  | zero => simp
  | succ k ih =>
    cases s with
    | nil => simp
    | cons a t =>
      calc ((a :: t).flatMap int16le).drop (2 * (k + 1))
          = ((int16le a ++ t.flatMap int16le).drop 2).drop (2 * k) := by
            rw [List.drop_drop]
            congr 1
            omega
        _ = (t.flatMap int16le).drop (2 * k) := rfl
        _ = (t.drop k).flatMap int16le := ih t

lemma readI16_of_drop_eq {x : Int} (hx1 : -32768 ≤ x) (hx2 : x ≤ 32767)
    {l r : List Nat} {off : Nat} (h : l.drop off = int16le x ++ r) :
    readI16 l off = x := by
  have h16 : readU16 l off = lebytes (int16le x) := by
    rw [readU16, h]
    rfl
  have hu : lebytes (int16le x) = (x % 65536).toNat := by
    show (x % 65536).toNat % 256 + 256 * ((x % 65536).toNat / 256 % 256 + 256 * 0)
        = (x % 65536).toNat
    omega
  rw [readI16, h16, hu]
  split <;> omega

lemma convert_to_wav_error (e : String) :
    convert_to_wav (.error e) = .error e := rfl

lemma convert_to_wav_nil :
    convert_to_wav (.ok []) = .error "No audio samples decoded" := rfl

lemma convert_to_wav_ok {samples : List ℚ} (h : samples ≠ []) :
    convert_to_wav (.ok samples) = .ok (encodeWav (samplesToInt16 samples)) := by
  rw [convert_to_wav]
  show (if samples.isEmpty then Except.error "No audio samples decoded"
    else Except.ok (encodeWav (samplesToInt16 samples))) = _
  rw [if_neg (by simpa [List.isEmpty_iff] using h)]

/-! ## Claim theorems -/

set_option maxHeartbeats 1600000 in
/-- C1: for a NormalizedPcm of `N` int16 samples (within the `struct.pack`
u32 bound on the chunk sizes) the encoder emits exactly `44 + 2N` bytes
whose header matches the documented layout field by field — `RIFF`,
`36 + data_size`, `WAVE`, `fmt `, fmt-chunk size 16, PCM tag 1, one
channel, sample rate 16000, byte rate 32000, block align 2, 16 bits per
sample, `data`, `data_size = 2N` — followed by the samples in
two's-complement little-endian order. -/
theorem wav_encoder_layout (s : List Int)
    (hbound : 36 + 2 * s.length < 4294967296)
    (hrange : ∀ x ∈ s, -32768 ≤ x ∧ x ≤ 32767) :
    (encodeWav s).length = 44 + 2 * s.length ∧
    (encodeWav s).take 4 = riffMagic ∧
    readU32 (encodeWav s) 4 = 36 + 2 * s.length ∧
    ((encodeWav s).drop 8).take 4 = waveMagic ∧
    ((encodeWav s).drop 12).take 4 = fmtMagic ∧
    readU32 (encodeWav s) 16 = 16 ∧
    readU16 (encodeWav s) 20 = 1 ∧
    readU16 (encodeWav s) 22 = 1 ∧
    readU32 (encodeWav s) 24 = 16000 ∧
    readU32 (encodeWav s) 28 = 32000 ∧
    readU16 (encodeWav s) 32 = 2 ∧
    readU16 (encodeWav s) 34 = 16 ∧
    ((encodeWav s).drop 36).take 4 = dataMagic ∧
    readU32 (encodeWav s) 40 = 2 * s.length ∧
    (encodeWav s).drop 44 = s.flatMap int16le ∧
    ∀ i : Fin s.length, readI16 (encodeWav s) (44 + 2 * i.val) = s.get i := by
  refine ⟨encodeWav_length s, rfl, ?_, rfl, rfl, rfl, rfl, rfl, rfl, ?_, rfl, rfl,
    rfl, ?_, rfl, ?_⟩
  · have h : readU32 (encodeWav s) 4 = lebytes (u32le (36 + s.length * 2)) := rfl
    rw [h, lebytes_u32le (by omega)]
    omega
  · have h : readU32 (encodeWav s) 28 = lebytes (u32le 32000) := rfl
    rw [h]
    rfl
  · have h : readU32 (encodeWav s) 40 = lebytes (u32le (s.length * 2)) := rfl
    rw [h, lebytes_u32le (by omega)]
    omega
  · intro i
    have hdrop : (encodeWav s).drop (44 + 2 * i.val)
        = int16le (s.get i) ++ (s.drop (i.val + 1)).flatMap int16le := by
      calc (encodeWav s).drop (44 + 2 * i.val)
          = ((encodeWav s).drop 44).drop (2 * i.val) := by
            rw [List.drop_drop, Nat.add_comm]
        _ = (s.flatMap int16le).drop (2 * i.val) := rfl
        _ = (s.drop i.val).flatMap int16le := drop_two_mul_flatMap i.val s
        _ = (s.get i :: s.drop (i.val + 1)).flatMap int16le := by
            rw [List.drop_eq_getElem_cons i.isLt]
            rfl
        _ = int16le (s.get i) ++ (s.drop (i.val + 1)).flatMap int16le := rfl
    have hmem := hrange (s.get i) (List.get_mem s i.val i.isLt)
    exact readI16_of_drop_eq hmem.1 hmem.2 hdrop

/-- C1 witness: the encoder output for the two-sample input `[1, -1]` has
exactly `44 + 2·2` bytes. -/
theorem wav_encoder_layout_witness :
    (encodeWav [1, -1]).length = 44 + 2 * ([1, -1] : List Int).length :=
  (wav_encoder_layout [1, -1] (by decide) (by decide)).1

set_option maxHeartbeats 1600000 in
/-- C4: encoding any int16 sample list (within the u32 size bound) into
WAV bytes and parsing them back recovers the identical sample sequence
together with `sample_rate = 16000` and `channel_count = 1`. -/
theorem wav_round_trip (s : List Int)
    (hbound : 36 + 2 * s.length < 4294967296)
    (hrange : ∀ x ∈ s, -32768 ≤ x ∧ x ≤ 32767) :
    parseWav (encodeWav s) = some (16000, 1, s) := by
  have h4 : readU32 (encodeWav s) 4 = 36 + 2 * s.length := by
    have h : readU32 (encodeWav s) 4 = lebytes (u32le (36 + s.length * 2)) := rfl
    rw [h, lebytes_u32le (by omega)]
    omega
  have h40 : readU32 (encodeWav s) 40 = 2 * s.length := by
    have h : readU32 (encodeWav s) 40 = lebytes (u32le (s.length * 2)) := rfl
    rw [h, lebytes_u32le (by omega)]
    omega
  have hlen : ((encodeWav s).drop 44).length = readU32 (encodeWav s) 40 := by
    have h : (encodeWav s).drop 44 = s.flatMap int16le := rfl
    rw [h, flatMap_int16le_length, h40]
  rw [parseWav,
    if_pos ⟨rfl, rfl, rfl, rfl, rfl, rfl, by rw [h4, h40], hlen⟩]
  have hd : decodeSamples ((encodeWav s).drop 44) = s := by
    have h : (encodeWav s).drop 44 = s.flatMap int16le := rfl
    rw [h, decodeSamples_int16le s hrange]
  rw [hd]
  rfl

/-- C4 witness: the concrete two-sample sequence `[5, -3]` survives the
encode–parse round trip. -/
theorem wav_round_trip_witness :
    parseWav (encodeWav [5, -3]) = some (16000, 1, [5, -3]) :=
  wav_round_trip [5, -3] (by decide) (by decide)

lemma astypeInt16_eq_truncToInt {s : ℚ} (hs : |s| ≤ 1) :
    astypeInt16 (s * 32767) = truncToInt (s * 32767) := by
  have habs : |s * 32767| ≤ ((32767 : Nat) : ℚ) := by
    rw [abs_mul]
    calc |s| * |(32767 : ℚ)| ≤ 1 * |(32767 : ℚ)| :=
          mul_le_mul_of_nonneg_right hs (abs_nonneg _)
      _ = ((32767 : Nat) : ℚ) := by norm_num
  obtain ⟨hlo, hhi⟩ := truncToInt_abs_le habs
  exact wrapInt16_of_mem_range (by omega) (by omega)

/-- C2 counterexample: on the decoded input `[1, 1/2]` the peak is 1, so
the second normalized sample is `1/2`; its scaled value `16383.5` is
quantized by the code to `16383` (numpy truncation toward zero), not to
the spec's `round(16383.5) = 16384`. -/
theorem quantization_not_rounding :
    samplesToInt16 [(1 : ℚ), 1/2] ≠
      (normalizeSamples [(1 : ℚ), 1/2]).map specQuantize := by
  have h1 : samplesToInt16 [(1 : ℚ), 1/2] = [32767, 16383] := by
    norm_num [samplesToInt16, normalizeSamples, peakOf, astypeInt16, truncToInt,
      wrapInt16, max_def, abs]
  have h2 : (normalizeSamples [(1 : ℚ), 1/2]).map specQuantize = [32767, 16384] := by
    norm_num [normalizeSamples, peakOf, specQuantize, max_def, min_def, abs,
      round_eq]
  rw [h1, h2]
  decide

/-- C2 (amended): each peak-normalized sample `s` is quantized to the
truncation toward zero of `s * 32767` (the numpy int16 cast), not to a
rounded value, and no clamping is applied; after peak normalization the
result nevertheless always lies in `[-32767, 32767]`. -/
theorem quantization_truncates (samples : List ℚ) :
    samplesToInt16 samples =
      (normalizeSamples samples).map (fun s => truncToInt (s * 32767)) ∧
    ∀ x ∈ samplesToInt16 samples, -32767 ≤ x ∧ x ≤ 32767 := by
  constructor
  · rw [samplesToInt16]
    exact List.map_congr_left fun s hs =>
      astypeInt16_eq_truncToInt (abs_normalize_le_one hs)
  · intro x hx
    obtain ⟨_, hlo, hhi⟩ := samplesToInt16_spec hx
    exact ⟨hlo, hhi⟩

/-- C2 witness: at the concrete one-sample input `[1]` the quantizer
output equals truncation of the scaled normalized sample. -/
theorem quantization_truncates_witness :
    samplesToInt16 [(1 : ℚ)] =
      (normalizeSamples [(1 : ℚ)]).map (fun s => truncToInt (s * 32767)) :=
  (quantization_truncates [(1 : ℚ)]).1

/-- C3: the sniffer classifies WAV iff the first four bytes are `RIFF`,
WEBM iff they are `1A 45 DF A3`, MP3 whenever the first three bytes are
`ID3` or the first two are `FF FB`, OGG iff the first four bytes are
`OggS` (whatever the rest of the blob holds), FLAC iff they are `fLaC`,
and UNKNOWN exactly when no signature matches — in particular an all-zero
blob is UNKNOWN; the function is total, hence never fails or raises. -/
theorem detect_format_characterization (d : List Nat) :
    (detect_audio_format d = .wav ↔ d.take 4 = riffMagic) ∧
    (detect_audio_format d = .webm ↔ d.take 4 = webmMagic) ∧
    ((d.take 3 = id3Magic ∨ d.take 2 = mp3SyncMagic) →
      detect_audio_format d = .mp3) ∧
    (detect_audio_format d = .ogg ↔ d.take 4 = oggMagic) ∧
    (detect_audio_format d = .flac ↔ d.take 4 = flacMagic) ∧
    (detect_audio_format d = .unknown ↔
      d.take 4 ≠ riffMagic ∧ d.take 4 ≠ webmMagic ∧ d.take 3 ≠ id3Magic ∧
        d.take 2 ≠ mp3SyncMagic ∧ d.take 4 ≠ oggMagic ∧ d.take 4 ≠ flacMagic) ∧
    ((∀ x ∈ d, x = 0) → detect_audio_format d = .unknown) := by
  obtain ⟨hw, hwb, hm, ho, hf, hu⟩ := detect_audio_format_spec d
  refine ⟨hw, hwb, hm, ho, hf, hu, fun hz => hu.mpr ⟨?_, ?_, ?_, ?_, ?_, ?_⟩⟩
  · exact take_ne_of_all_zero hz (show (0x52 : Nat) ∈ riffMagic by decide) (by decide)
  · exact take_ne_of_all_zero hz (show (0x1A : Nat) ∈ webmMagic by decide) (by decide)
  · exact take_ne_of_all_zero hz (show (0x49 : Nat) ∈ id3Magic by decide) (by decide)
  · exact take_ne_of_all_zero hz (show (0xFF : Nat) ∈ mp3SyncMagic by decide) (by decide)
  · exact take_ne_of_all_zero hz (show (0x4F : Nat) ∈ oggMagic by decide) (by decide)
  · exact take_ne_of_all_zero hz (show (0x66 : Nat) ∈ flacMagic by decide) (by decide)

/-- C3 witness: a buffer starting with `OggS` classifies as OGG whatever
follows. -/
theorem detect_format_characterization_witness :
    detect_audio_format [0x4F, 0x67, 0x67, 0x53, 0, 7] = ContainerFormat.ogg :=
  (detect_format_characterization [0x4F, 0x67, 0x67, 0x53, 0, 7]).2.2.2.1.mpr
    (by decide)

/-- C5: an empty decoded sample sequence makes the conversion fail with
the `"No audio samples decoded"` error before any WAV bytes are built,
and a nonempty one within the `struct.pack` u32 domain
(`36 + 2N < 2^32`; beyond it line 132 raises `struct.error`, a failure
path outside this claim) always yields a WAV of `44 + 2N > 0` bytes — in
that domain the normalize/encode stage fails only in the empty case and
never produces a zero-length WAV. -/
theorem empty_audio_error (samples : List ℚ) :
    (samples = [] →
      convert_to_wav (.ok samples) = .error "No audio samples decoded") ∧
    (samples ≠ [] → 36 + 2 * samples.length < 4294967296 →
      ∃ w, convert_to_wav (.ok samples) = .ok w ∧
      w.length = 44 + 2 * samples.length ∧ 0 < w.length) := by
  constructor
  · rintro rfl
    rfl
  · intro h hbound
    refine ⟨encodeWav (samplesToInt16 samples), convert_to_wav_ok h, ?_, ?_⟩
    · rw [encodeWav_length, samplesToInt16_length]
    · rw [encodeWav_length]
      omega

/-- C5 witness: the one-sample input `[1]` converts to a 46-byte WAV. -/
theorem empty_audio_error_witness :
    ∃ w, convert_to_wav (.ok [(1 : ℚ)]) = .ok w ∧
      w.length = 44 + 2 * ([(1 : ℚ)] : List ℚ).length ∧ 0 < w.length :=
  (empty_audio_error [(1 : ℚ)]).2 (by simp) (by decide)

/-- C6: a strictly positive peak scales every sample by `1 / peak` before
quantization; a zero peak (all-silence input) leaves the samples unscaled
and the quantized output is a sequence of int16 zeros. -/
theorem peak_normalization_cases (samples : List ℚ) :
    (0 < peakOf samples →
      normalizeSamples samples = samples.map (fun s => s * (1 / peakOf samples))) ∧
    (peakOf samples = 0 →
      normalizeSamples samples = samples ∧
      samplesToInt16 samples = List.replicate samples.length 0) := by
  constructor
  · intro hp
    rw [normalizeSamples, if_pos hp]
    exact List.map_congr_left fun s _ => by rw [one_div, div_eq_mul_inv]
  · intro hz
    have hns : normalizeSamples samples = samples := by
      rw [normalizeSamples, if_neg (by rw [hz]; exact lt_irrefl 0)]
    refine ⟨hns, ?_⟩
    rw [samplesToInt16, hns]
    have hzero : ∀ s ∈ samples, astypeInt16 (s * 32767) = 0 := by
      intro s hs
      rw [eq_zero_of_peakOf_eq_zero hz hs]
      norm_num [astypeInt16, truncToInt, wrapInt16]
    calc samples.map (fun s => astypeInt16 (s * 32767))
        = samples.map (fun _ => (0 : Int)) := List.map_congr_left hzero
      _ = List.replicate samples.length 0 := by
          induction samples with
          | nil => rfl
          | cons a t ih => simp [List.replicate, ih]

/-- C6 witness: the one-sample input `[1]` has peak 1 and is scaled by
`1 / 1`. -/
theorem peak_normalization_cases_witness :
    normalizeSamples [(1 : ℚ)] =
      [(1 : ℚ)].map (fun s => s * (1 / peakOf [(1 : ℚ)])) :=
  (peak_normalization_cases [(1 : ℚ)]).1 (by simp [peakOf, lt_max_iff])

/-- C7: every failure the conversion stage can raise (the decode oracle
throwing, or the empty-samples check; sniffing and encoding are total) is
caught at the orchestrator boundary and returned as a structured result
with `success = false`, `text = ""` and a non-empty error message —
nothing escapes to the caller unhandled. -/
theorem conversion_failures_caught (blob : List Nat)
    (decoded : Except String (List ℚ))
    (engine : List Nat → Except String (String × String × ℚ))
    (hnw : detect_audio_format blob ≠ ContainerFormat.wav)
    (hfail : (∃ e, decoded = .error e) ∨ decoded = .ok []) :
    ∃ m, transcribe_audio blob decoded engine =
        ⟨false, "", none, none, some m⟩ ∧ m ≠ "" := by
  have hne : ∀ e : String, "Audio conversion failed: " ++ e ≠ "" := by
    intro e hcon
    have hlen := congrArg String.length hcon
    rw [String.length_append] at hlen
    have h25 : ("Audio conversion failed: " : String).length = 25 := rfl
    have h0 : ("" : String).length = 0 := rfl
    omega
  have hafter : audio_for_transcription blob decoded = convert_to_wav decoded := by
    rw [audio_for_transcription, if_pos hnw]
  rcases hfail with ⟨e, rfl⟩ | rfl
  · exact ⟨"Audio conversion failed: " ++ e,
      by simp only [transcribe_audio, hafter, convert_to_wav_error], hne e⟩
  · exact ⟨"Audio conversion failed: " ++ "No audio samples decoded",
      by simp only [transcribe_audio, hafter, convert_to_wav_nil], hne _⟩

/-- C7 witness: a decode failure on a non-WAV blob surfaces as the
structured failure result. -/
theorem conversion_failures_caught_witness :
    ∃ m, transcribe_audio [0, 0, 0, 0] (Except.error "boom")
        (fun _ => Except.error "engine") =
        ⟨false, "", none, none, some m⟩ ∧ m ≠ "" :=
  conversion_failures_caught [0, 0, 0, 0] (Except.error "boom")
    (fun _ => Except.error "engine") (by decide) (Or.inl ⟨"boom", rfl⟩)

/-- C8: a blob that sniffs as WAV bypasses decoding, normalization and
encoding entirely: whatever the decode oracle would have produced, the
engine is handed exactly the original bytes, unchanged. -/
theorem wav_blob_passthrough (blob : List Nat)
    (decoded : Except String (List ℚ))
    (engine : List Nat → Except String (String × String × ℚ))
    (hwav : detect_audio_format blob = ContainerFormat.wav) :
    audio_for_transcription blob decoded = .ok blob ∧
    transcribe_audio blob decoded engine = engineResult engine blob := by
  have h1 : audio_for_transcription blob decoded = .ok blob := by
    rw [audio_for_transcription, if_neg (by simp [hwav])]
  exact ⟨h1, by simp only [transcribe_audio, h1]⟩

/-- C8 witness: the four-byte blob `RIFF` is passed through as is. -/
theorem wav_blob_passthrough_witness :
    audio_for_transcription [0x52, 0x49, 0x46, 0x46] (Except.error "unused") =
      Except.ok [0x52, 0x49, 0x46, 0x46] :=
  (wav_blob_passthrough [0x52, 0x49, 0x46, 0x46] (Except.error "unused")
    (fun _ => Except.error "e") (by decide)).1

/-- C9 counterexample: the three-byte blob `b'ID3'` is shorter than four
bytes yet classifies as MP3, not UNKNOWN. -/
theorem short_blob_not_unknown :
    ([0x49, 0x44, 0x33] : List Nat).length < 4 ∧
      detect_audio_format [0x49, 0x44, 0x33] = ContainerFormat.mp3 := by decide

/-- C9 (amended): a blob shorter than four bytes classifies as UNKNOWN
unless its first three bytes are `ID3` or its first two bytes are
`FF FB`, in which case it classifies as MP3. -/
theorem short_blob_classification (d : List Nat) (h : d.length < 4) :
    detect_audio_format d =
      if d.take 3 = id3Magic ∨ d.take 2 = mp3SyncMagic then ContainerFormat.mp3
      else ContainerFormat.unknown := by
  have h4 : d.take 4 = d := List.take_of_length_le (by omega)
  have hne : ∀ l : List Nat, l.length = 4 → d.take 4 ≠ l := by
    intro l hl hcon
    rw [h4] at hcon
    rw [hcon] at h
    omega
  rw [detect_audio_format, if_neg (hne riffMagic rfl), if_neg (hne webmMagic rfl)]
  by_cases hc : d.take 3 = id3Magic ∨ d.take 2 = mp3SyncMagic
  · rw [if_pos hc, if_pos hc]
  · rw [if_neg hc, if_neg hc, if_neg (hne oggMagic rfl), if_neg (hne flacMagic rfl)]

/-- C9 witness: the one-byte blob `[0]` classifies as UNKNOWN. -/
theorem short_blob_classification_witness :
    detect_audio_format [0] =
      (if ([0] : List Nat).take 3 = id3Magic ∨ ([0] : List Nat).take 2 = mp3SyncMagic
       then ContainerFormat.mp3 else ContainerFormat.unknown) :=
  short_blob_classification [0] (by decide)

/-- C10: for a non-empty decoded sequence every normalized sample lies in
`[-1, 1]`, its scaled value lies in `[-32767, 32767]`, and every
quantized output value lies in `[-32767, 32767]` — the int16 value
`-32768` is never produced. -/
theorem quantized_range (samples : List ℚ) (h : samples ≠ []) :
    (∀ s ∈ normalizeSamples samples, |s| ≤ 1 ∧ |s * 32767| ≤ 32767) ∧
    ∀ x ∈ samplesToInt16 samples, (-32767 ≤ x ∧ x ≤ 32767) ∧ x ≠ -32768 := by
  constructor
  · intro s hs
    have h1 := abs_normalize_le_one hs
    refine ⟨h1, ?_⟩
    rw [abs_mul]
    calc |s| * |(32767 : ℚ)| ≤ 1 * |(32767 : ℚ)| :=
          mul_le_mul_of_nonneg_right h1 (abs_nonneg _)
      _ = 32767 := by norm_num
  · intro x hx
    obtain ⟨_, hlo, hhi⟩ := samplesToInt16_spec hx
    exact ⟨⟨hlo, hhi⟩, by omega⟩

/-- C10 witness: on the input `[1]` the (unique) quantized value `32767`
is in range and differs from `-32768`. -/
theorem quantized_range_witness :
    (-32767 ≤ (32767 : Int) ∧ (32767 : Int) ≤ 32767) ∧ (32767 : Int) ≠ -32768 :=
  (quantized_range [(1 : ℚ)] (by simp)).2 32767 (by norm_num [samplesToInt16,
    normalizeSamples, peakOf, astypeInt16, truncToInt, wrapInt16, max_def, abs])

end Stt
